import Mathlib

/-!
Shallow embedding of the sentry notification core:
`src/sentry/models/groupsubscription.py` (subscription store and participant
resolver) and `src/sentry/mail/adapter.py` (mail adapter: target resolution,
dispatch, digest notification).

Database state is modelled explicitly: the set of subscription rows for a
fixed issue (group) is a `Finset ℕ` of user ids (the unique constraint on
(group, user) means one row per user per group).  Fallible database writes
return `Except` values; an `IntegrityError` raised by a unique-constraint
violation is the `.error` case.  Concurrent writers racing with
`bulk_subscribe` are modelled by an explicit interference schedule: a list
whose i-th element is the set of user ids inserted by other writers between
the i-th query and the i-th insert attempt.
-/

namespace Sentry

/-- Reason codes from `GroupSubscriptionReason` (groupsubscription.py).
Negative values are synthetic, never persisted. -/
def GroupSubscriptionReason.implicit : Int := -1

def GroupSubscriptionReason.committed : Int := -2

def GroupSubscriptionReason.processing_issue : Int := -3

def GroupSubscriptionReason.unknown : Int := 0

def GroupSubscriptionReason.comment : Int := 1

/-- Errors surfaced by the subscription store. `integrity` is the database
unique-constraint violation (`IntegrityError`); `notImplemented` is the
`NotImplementedError` raised by `subscribe_actor` on an unknown actor type. -/
inductive StoreError where
  | integrity : StoreError
  | notImplemented : StoreError
deriving DecidableEq, Repr

instance {ε α : Type} [DecidableEq ε] [DecidableEq α] : DecidableEq (Except ε α) :=
  fun a b =>
    match a, b with
    | .error e, .error f =>
      if h : e = f then isTrue (congrArg Except.error h)
      else isFalse (fun hc => h (Except.error.inj hc))
    | .error _, .ok _ => isFalse (fun hc => Except.noConfusion hc)
    | .ok _, .error _ => isFalse (fun hc => Except.noConfusion hc)
    | .ok x, .ok y =>
      if h : x = y then isTrue (congrArg Except.ok h)
      else isFalse (fun hc => h (Except.ok.inj hc))

/-- Model of `self.create(...)` inside `subscribe`: inserting a row
violating the (group, user) unique constraint raises `IntegrityError`,
otherwise the row is added.  State is the set of user ids subscribed to the
fixed group. -/
def create (rows : Finset ℕ) (user : ℕ) : Except StoreError (Finset ℕ) :=
  if user ∈ rows then .error .integrity else .ok (insert user rows)

/-- Embedding of `GroupSubscriptionManager.subscribe` (groupsubscription.py lines 51-62):
try to create the row; on `IntegrityError`, `pass` (state unchanged, no error
escapes). -/
def subscribe (rows : Finset ℕ) (user : ℕ) : Finset ℕ :=
  match create rows user with
  | .error _ => rows
  | .ok rows' => rows'

/-- One iteration body of the `bulk_subscribe` retry loop
(groupsubscription.py lines 87-108): re-query the existing rows among
`userIds`, build the insert list of the ids not already present, then
`bulk_create` inside a transaction.  `interference` is what concurrent
writers commit between our query and our insert; the insert conflicts
(IntegrityError, our transaction rolled back) exactly when one of the rows
we try to insert meanwhile exists. -/
def bulkAttempt (userIds rows interference : Finset ℕ) :
    Except StoreError (Finset ℕ) :=
  let existing := rows ∩ userIds
  let toInsert := userIds \ existing
  let rows' := rows ∪ interference
  if (toInsert ∩ rows').Nonempty then .error .integrity
  else .ok (rows' ∪ toInsert)

/-- The `for i in range(4, -1, -1)` retry loop of `bulk_subscribe`: `i` counts
down 4, 3, 2, 1, 0; an `IntegrityError` with `i == 0` is re-raised, otherwise
the loop retries.  On success it returns the new row set together with the
number of insert attempts made (the Python code returns `True`). -/
def bulkLoop (userIds : Finset ℕ) :
    ℕ → Finset ℕ → List (Finset ℕ) → ℕ → Except StoreError (Finset ℕ × ℕ)
  | i, rows, interf, attempts =>
    let intf := interf.headD ∅
    match bulkAttempt userIds rows intf with
    | .ok rows' => .ok (rows', attempts + 1)
    | .error e =>
      match i with
      | 0 => .error e
      | i' + 1 => bulkLoop userIds i' (rows ∪ intf) interf.tail (attempts + 1)

/-- Embedding of `GroupSubscriptionManager.bulk_subscribe` (groupsubscription.py
lines 76-111): run the retry loop with `i` starting at 4 (five attempts). -/
def bulk_subscribe (rows userIds : Finset ℕ) (interf : List (Finset ℕ)) :
    Except StoreError (Finset ℕ × ℕ) :=
  bulkLoop userIds 4 rows interf 0

/-- A `GroupSubscription` row as seen by `get_participants`: the rows are
pre-filtered to the issue, so only the user id, the active flag and the
reason remain relevant. -/
structure SubscriptionRow where
  user_id : ℕ
  is_active : Bool
  reason : Int
deriving DecidableEq, Repr

/-- Resolved workflow notification setting values relevant to participation
(`NotificationSettingOptionValues`): `never`, `always`, or anything else
(default / unset). -/
inductive SettingValue where
  | never : SettingValue
  | always : SettingValue
  | default : SettingValue
deriving DecidableEq, Repr

/-- Last-wins dictionary lookup: the dict comprehension keyed by
`subscription.user_id` keeps the last row for a user id when several occur
(the unique constraint makes that impossible in practice, but the model
mirrors the dict). -/
def subsByUserId (subs : List SubscriptionRow) (u : ℕ) : Option SubscriptionRow :=
  subs.reverse.find? (fun s => s.user_id = u)

/-- Modelled from the spec: `should_be_participating`
(sentry.notifications.helpers, not under src/).  Per the spec's decision
policy, a user participates iff (a) they have an active explicit
subscription and their resolved setting is not "never", or (b) they have no
explicit subscription and their resolved setting is "always". -/
def should_be_participating (sub : Option SubscriptionRow) (v : SettingValue) : Bool :=
  match sub with
  | some s => s.is_active && v ≠ SettingValue.never
  | none => v = SettingValue.always

/-- Embedding of `GroupSubscriptionManager.get_participants`
(groupsubscription.py lines 113-148): over the project's member users, keep
those for whom `should_be_participating` holds; the mapped reason is
`getattr(subscriptions_by_user_id.get(user.id), "reason", implicit)`, i.e.
the subscription row's reason when a row exists, else the synthetic implicit
reason.  `setting u` is the user's resolved workflow notification setting
(resolution across scopes happens in helpers outside src/). -/
def get_participants (users : List ℕ) (subs : List SubscriptionRow)
    (setting : ℕ → SettingValue) : List (ℕ × Int) :=
  users.filterMap fun u =>
    if should_be_participating (subsByUserId subs u) (setting u) then
      some (u, match subsByUserId subs u with
        | some s => s.reason
        | none => GroupSubscriptionReason.implicit)
    else none

/-- Actors accepted by `subscribe_actor`: a `User`, a `Team` (with its member
user ids), or any other object. -/
inductive Actor where
  | user (id : ℕ) : Actor
  | team (memberIds : Finset ℕ) : Actor
  | other : Actor
deriving DecidableEq

/-- Embedding of `GroupSubscriptionManager.subscribe_actor` (groupsubscription.py
lines 64-74): a `User` goes through `subscribe`, a `Team` expands to
`bulk_subscribe` over its member user ids, anything else raises
`NotImplementedError`. -/
def subscribe_actor (rows : Finset ℕ) (interf : List (Finset ℕ)) :
    Actor → Except StoreError (Finset ℕ)
  | .user id => .ok (subscribe rows id)
  | .team memberIds => (bulk_subscribe rows memberIds interf).map Prod.fst
  | .other => .error .notImplemented

/-! Mail adapter (src/sentry/mail/adapter.py).  Users, teams, projects,
rules, groups and events are identified by their ids (ℕ).  Python dicts are
modelled as association lists with last-wins lookup. -/

/-- Dictionary lookup on an association list, last binding wins (as for a
Python dict built left to right). -/
def alistGet {α β : Type} [DecidableEq α] (l : List (α × β)) (k : α) : Option β :=
  (l.reverse.find? (fun p => p.1 = k)).map Prod.snd

/-- Dictionary update on an association list: replace the binding if the key
is present, append it otherwise. -/
def alistSet {α β : Type} [DecidableEq α] (l : List (α × β)) (k : α) (v : β) :
    List (α × β) :=
  if l.any (fun p => p.1 = k) then l.map (fun p => if p.1 = k then (k, v) else p)
  else l ++ [(k, v)]

/-- Embedding of `ActionTargetType` (adapter.py lines 48-51). -/
inductive ActionTargetType where
  | issueOwners : ActionTargetType
  | team : ActionTargetType
  | member : ActionTargetType
deriving DecidableEq, Repr

/-- Embedding of `MailAdapter.should_notify` (adapter.py lines 172-178):
`target_type == ActionTargetType.MEMBER or self.get_sendable_user_objects(...)`.
The Python expression returns either the boolean True or the (possibly
empty) collection of sendable users; its truthiness is modelled as a Bool.
`sendableUsers` is the collection returned by the external
notification-settings query. -/
def should_notify (tt : ActionTargetType) (sendableUsers : List ℕ) : Bool :=
  tt = ActionTargetType.member || !sendableUsers.isEmpty

/-- Embedding of `MailAdapter.get_send_to_member` (adapter.py lines 280-300):
with no target identifier the result is empty; otherwise look the user up
among the users belonging to the project's teams
(`sentry_orgmember_set__teams__projectteam__project=project`); `DoesNotExist`
yields the empty set, a hit yields the singleton of the user id.  No
disabled-user filtering appears anywhere in this function. -/
def get_send_to_member (projectTeamUsers : Finset ℕ) (targetIdentifier : Option ℕ) :
    Finset ℕ :=
  match targetIdentifier with
  | none => ∅
  | some i => if i ∈ projectTeamUsers then {i} else ∅

/-- Notification setting scopes relevant to `disabled_users_from_project`
(`NotificationScopeType`): the code reads the PROJECT scope out of each
user's per-scope dict. -/
inductive ScopeType where
  | user_scope : ScopeType
  | organization : ScopeType
  | project : ScopeType
deriving DecidableEq, Repr

/-- Embedding of `MailAdapter.disabled_users_from_project` (adapter.py lines
244-267): over the project's members, a user is disabled iff their settings
dict is present and non-empty (`if settings:`) and its PROJECT-scope entry
equals NEVER.  `settingsByUser` is the per-user dict produced by the
external settings transform. -/
def disabled_users_from_project (members : List ℕ)
    (settingsByUser : ℕ → Option (List (ScopeType × SettingValue))) : Finset ℕ :=
  (members.filter fun u =>
    match settingsByUser u with
    | none => false
    | some ss => !ss.isEmpty && alistGet ss ScopeType.project = some SettingValue.never
  ).toFinset

/-- Owner kinds returned by the external ownership evaluator: the code tests
`owner.type == User` and treats everything else as a team. -/
inductive OwnerKind where
  | user : OwnerKind
  | team : OwnerKind
deriving DecidableEq, Repr

/-- An owner produced by `ProjectOwnership.get_owners`. -/
structure Owner where
  kind : OwnerKind
  id : ℕ
deriving DecidableEq, Repr

/-- Result of the external ownership evaluator `ProjectOwnership.get_owners`:
either the `Everyone` sentinel or an explicit (possibly empty) owner list. -/
inductive OwnersResult where
  | everyone : OwnersResult
  | explicit (owners : List Owner) : OwnersResult
deriving DecidableEq, Repr

/-- Embedding of `MailAdapter.get_send_to_owners` (adapter.py lines 202-242).
`teamMembers t` is the external query for the active users of team `t`
(`User.objects.filter(is_active=True, ...team__id__in=teams_to_resolve)`);
`allInProject` is `get_send_to_all_in_project` (the cached sendable set).
With the `Everyone` sentinel the result is `allInProject`; with an empty
explicit owner list (`if not owners`) it is empty; otherwise direct user
owners are unioned with the members of team owners and the disabled users
are subtracted. -/
def get_send_to_owners (res : OwnersResult) (teamMembers : ℕ → Finset ℕ)
    (allInProject : Finset ℕ) (members : List ℕ)
    (settingsByUser : ℕ → Option (List (ScopeType × SettingValue))) : Finset ℕ :=
  match res with
  | .everyone => allInProject
  | .explicit owners =>
    if owners.isEmpty then ∅
    else
      let direct := ((owners.filter (fun o => o.kind = OwnerKind.user)).map Owner.id).toFinset
      let teamsToResolve := (owners.filter (fun o => ¬o.kind = OwnerKind.user)).map Owner.id
      let fromTeams := teamsToResolve.foldl (fun acc t => acc ∪ teamMembers t) ∅
      (direct ∪ fromTeams) \ disabled_users_from_project members settingsByUser

/-! Digest notification (adapter.py `notify_digest`, `rule_notify`) and the
per-recipient send loop of `notify`. -/

/-- A digest record (`event_to_record(event, rules)`): a timestamp, the
event it references and the ids of the rules that matched it. -/
structure Record where
  timestamp : ℕ
  eventId : ℕ
  ruleIds : List ℕ
deriving DecidableEq, Repr

/-- A digest as `notify_digest` receives it: a dict from rule id to a dict
from group id to the records for that group, both modelled as association
lists. -/
def Digest : Type := List (ℕ × List (ℕ × List Record))

instance : DecidableEq Digest := by
  unfold Digest
  infer_instance

/-- Distinct group ids carrying at least one record, i.e. the keys of the
`counts` mapping of `get_digest_metadata` (modelled from the spec: counts
tally record occurrences per issue across all rules; a group is counted iff
it has a record). -/
def digestGroups (d : Digest) : List ℕ :=
  ((d.flatMap (fun rg => rg.2.filter (fun gr => !gr.2.isEmpty))).map (fun gr => gr.1)).dedup

/-- All records for group `g` across the digest:
`itertools.chain.from_iterable(groups.get(group, []) for groups in digest.values())`. -/
def allRecordsFor (d : Digest) (g : ℕ) : List Record :=
  d.flatMap (fun rg => (alistGet rg.2 g).getD [])

/-- Python's `max(records, key=lambda record: record.timestamp)`: the first
record attaining the maximal timestamp (`none` on an empty list, where
Python raises). -/
def maxByTimestamp : List Record → Option Record
  | [] => none
  | r :: rest => some (rest.foldl (fun m r' => if r'.timestamp > m.timestamp then r' else m) r)

/-- A delivery produced by `notify_digest`: either the whole call collapses
to the single-notification path (`return self.notify(...)` with the chosen
record — recipients are then re-resolved inside `notify`, not taken from the
personalized pair), or one aggregate digest email is sent to one user id. -/
inductive DigestDelivery where
  | single (r : Record) : DigestDelivery
  | aggregate (userId : ℕ) (d : Digest) : DigestDelivery
deriving DecidableEq

/-- Embedding of the recipient loop of `MailAdapter.notify_digest`
(adapter.py lines 460-505).  The input is the sequence produced by the
external `get_personalized_digests(target_type, project.id, digest,
user_ids)`: one (user id, personalized digest) pair per eligible recipient.
For each pair, if the personalized digest has exactly one group
(`len(counts) == 1`), the function RETURNS the single-notification path with
the most recent record for that group, ending the loop; otherwise it sends
the aggregate digest email to that user and continues. -/
def notify_digest : List (ℕ × Digest) → List DigestDelivery
  | [] => []
  | (u, d) :: rest =>
    if (digestGroups d).length = 1 then
      match (digestGroups d).head? with
      | some g =>
        match maxByTimestamp (allRecordsFor d g) with
        | some r => [DigestDelivery.single r]
        | none => []
      | none => []
    else DigestDelivery.aggregate u d :: notify_digest rest

/-- Embedding of the send loop at the end of `MailAdapter.notify`
(adapter.py lines 410-438): for each user id in the resolved `get_send_to`
set, `_send_mail` is called with `send_to=[user_id]`.  There is no
try/except around the loop body, so an exception while building or sending
one recipient's message propagates and ends the loop.  `send u` is the
outcome of `_send_mail` for user `u`; the function returns the user ids for
which a send was attempted. -/
def sendLoopAttempted (send : ℕ → Except Unit Unit) : List ℕ → List ℕ
  | [] => []
  | u :: rest =>
    match send u with
    | .error _ => [u]
    | .ok _ => u :: sendLoopAttempted send rest

/-- A digest key as built by `unsplit_key(project, target_type,
target_identifier)`: the triple of project id, target type and target
identifier. -/
def DigestKey : Type := ℕ × ActionTargetType × Option ℕ

instance : DecidableEq DigestKey := by
  unfold DigestKey
  infer_instance

/-- Embedding of `unsplit_key` (sentry.digests.notifications, called from
adapter.py line 88): derive the digest key from project, target type and
target identifier. -/
def unsplit_key (project : ℕ) (tt : ActionTargetType) (ti : Option ℕ) : DigestKey :=
  (project, tt, ti)

/-- Modelled from the spec: `digests.add` (the digest backend,
sentry.digests, not under src/).  Appends the record under the key and
reports `immediate_delivery = True` exactly when the buffer for the key was
previously empty/flushed. -/
def digests_add (st : List (DigestKey × List Record)) (key : DigestKey)
    (r : Record) : List (DigestKey × List Record) × Bool :=
  let existing := (alistGet st key).getD []
  (alistSet st key (existing ++ [r]), existing.isEmpty)

/-- Outcome of `rule_notify`: either the record was appended to a digest
(with a flush of that key triggered iff the append reported immediate
delivery), or the immediate path ran, producing one delivery per resolved
recipient. -/
inductive RuleNotifyResult where
  | digested (key : DigestKey) (flushTriggered : Bool) : RuleNotifyResult
  | immediate (deliveries : List ℕ) : RuleNotifyResult
deriving DecidableEq

/-- A rule-match future as consumed by `rule_notify`: the matched rule's id
and the keyword arguments attached to the match (keyword names abstracted to
numbers).  The default notification path supports only empty kwargs. -/
structure RuleFuture where
  ruleId : ℕ
  kwargs : List (ℕ × ℕ)
deriving DecidableEq, Repr

/-- Embedding of `event_to_record(event, rules)`
(sentry.digests.notifications, called from adapter.py line 92; modelled from
the spec: records carry timestamp, event reference and matched rules). -/
def event_to_record (timestamp eventId : ℕ) (rules : List ℕ) : Record :=
  ⟨timestamp, eventId, rules⟩

/-- Embedding of `MailAdapter.rule_notify` (adapter.py lines 61-105).  The
futures loop (lines 72-79) collects the matched rules and raises
`NotImplementedError` as soon as any future carries non-empty kwargs —
before `digests.enabled` is consulted, so neither path runs on such input.
Otherwise, if digesting is enabled for the project, the event record is
appended under `unsplit_key(project, target_type, target_identifier)` and
`deliver_digest.delay(digest_key)` is invoked exactly when the append
reported immediate delivery.  Otherwise `self.notify(...)` runs the
immediate path: its `get_send_to` resolution is the `sendTo` parameter and
one `_send_mail` happens per resolved recipient. -/
def rule_notify (digestsEnabled : Bool) (st : List (DigestKey × List Record))
    (project : ℕ) (tt : ActionTargetType) (ti : Option ℕ)
    (futures : List RuleFuture) (eventTimestamp eventId : ℕ) (sendTo : List ℕ) :
    Except StoreError (List (DigestKey × List Record) × RuleNotifyResult) :=
  if futures.any (fun f => !f.kwargs.isEmpty) then
    Except.error StoreError.notImplemented
  else
    let record := event_to_record eventTimestamp eventId (futures.map RuleFuture.ruleId)
    if digestsEnabled then
      let key := unsplit_key project tt ti
      let res := digests_add st key record
      Except.ok (res.1, RuleNotifyResult.digested key res.2)
    else
      Except.ok (st, RuleNotifyResult.immediate sendTo)

/-! Concrete inputs used by counterexamples and witnesses. -/

/-- A record with timestamp 10 for event 1, matched by rule 1. -/
def exRecord1 : Record := ⟨10, 1, [1]⟩

/-- A record with timestamp 20 for event 2, matched by rule 1. -/
def exRecord2 : Record := ⟨20, 2, [1]⟩

/-- A personalized digest whose records span exactly one group (group 5). -/
def exDigestOne : Digest := [(1, [(5, [exRecord1])])]

/-- A personalized digest whose records span two groups (5 and 6). -/
def exDigestTwo : Digest := [(1, [(5, [exRecord1]), (6, [exRecord2])])]

/-- A send outcome map where `_send_mail` raises for user 1 and succeeds for
everyone else. -/
def exSendFail (u : ℕ) : Except Unit Unit :=
  if u = 1 then Except.error () else Except.ok ()

/-- Team membership where team 9 has the single member 20. -/
def exTeamMembers (t : ℕ) : Finset ℕ := if t = 9 then {20} else ∅

/-- Settings where user 20 has NEVER at project scope and everyone else has
no settings dict. -/
def exSettingsByUser (u : ℕ) : Option (List (ScopeType × SettingValue)) :=
  if u = 20 then some [(ScopeType.project, SettingValue.never)] else none

/-- A rule-match future for rule 7 with no keyword arguments. -/
def exFutureOk : RuleFuture := ⟨7, []⟩

/-- A rule-match future for rule 7 carrying a keyword argument, on which
rule_notify raises before dispatching. -/
def exFutureKwargs : RuleFuture := ⟨7, [(0, 0)]⟩

/-! Theorems.  Helper lemmas first, then one theorem per claim. -/

/-- C6: subscribe is idempotent: when the row already exists it is a no-op
(the duplicate-key error is absorbed, never surfaced), the row exists
afterwards, and a second call changes nothing, leaving exactly one row for
the (issue, user) pair. -/
theorem subscribe_idempotent (rows : Finset ℕ) (u : ℕ) :
    u ∈ subscribe rows u ∧
    subscribe (subscribe rows u) u = subscribe rows u ∧
    ((subscribe (subscribe rows u) u).filter (fun v => v = u)).card = 1 ∧
    (u ∈ rows → subscribe rows u = rows) := by
  unfold subscribe create
  by_cases h : u ∈ rows
  · simp [h, Finset.filter_eq', h]
  · simp [h, Finset.filter_eq']

theorem subscribe_idempotent_witness :
    (0 : ℕ) ∈ subscribe {0} 0 ∧ subscribe {0} 0 = {0} :=
  ⟨(subscribe_idempotent {0} 0).1, (subscribe_idempotent {0} 0).2.2.2 (by decide)⟩

/-- C9: subscribe_actor on a user behaves as subscribe (and succeeds), on a
team behaves as bulk_subscribe over the team's member user ids, and on any
other actor kind surfaces the NotImplementedError rather than succeeding. -/
theorem subscribe_actor_spec (rows : Finset ℕ) (interf : List (Finset ℕ)) :
    (∀ id, subscribe_actor rows interf (Actor.user id) = Except.ok (subscribe rows id)) ∧
    (∀ ms rows', subscribe_actor rows interf (Actor.team ms) = Except.ok rows' ↔
      ∃ n, bulk_subscribe rows ms interf = Except.ok (rows', n)) ∧
    subscribe_actor rows interf Actor.other = Except.error StoreError.notImplemented ∧
    (∀ rows', subscribe_actor rows interf Actor.other ≠ Except.ok rows') := by
  refine ⟨fun id => rfl, fun ms rows' => ?_, rfl, fun rows' h => by simp [subscribe_actor] at h⟩
  constructor
  · intro h
    simp only [subscribe_actor] at h
    cases hb : bulk_subscribe rows ms interf with
    | error e => rw [hb] at h; simp [Except.map] at h
    | ok p => rw [hb] at h; simp [Except.map] at h; exact ⟨p.2, by simp [← h]⟩
  · rintro ⟨n, hb⟩
    simp only [subscribe_actor, hb]
    rfl

theorem subscribe_actor_spec_witness :
    subscribe_actor ∅ [] (Actor.user 3) = Except.ok (subscribe ∅ 3) ∧
    (subscribe_actor ∅ [] (Actor.team {4}) = Except.ok {4} ↔
      ∃ n, bulk_subscribe ∅ {4} [] = Except.ok ({4}, n)) ∧
    subscribe_actor ∅ [] Actor.other = Except.error StoreError.notImplemented :=
  ⟨(subscribe_actor_spec ∅ []).1 3, (subscribe_actor_spec ∅ []).2.1 {4} {4},
    (subscribe_actor_spec ∅ []).2.2.1⟩

/-- C10: should_notify is true whenever the target type is MEMBER, regardless
of the sendable users; for any other target type it is truthy exactly when
the project has at least one sendable user. -/
theorem should_notify_spec (sendableUsers : List ℕ) :
    should_notify ActionTargetType.member sendableUsers = true ∧
    (∀ tt, tt ≠ ActionTargetType.member →
      (should_notify tt sendableUsers = true ↔ sendableUsers ≠ [])) := by
  unfold should_notify
  refine ⟨by simp, fun tt htt => ?_⟩
  simp [htt, List.isEmpty_iff]

theorem should_notify_spec_witness :
    should_notify ActionTargetType.member [] = true ∧
    (should_notify ActionTargetType.team [3] = true ↔ [3] ≠ ([] : List ℕ)) :=
  ⟨(should_notify_spec []).1, (should_notify_spec [3]).2 ActionTargetType.team (by decide)⟩

/-- C8: resolving a MEMBER target yields the singleton of the identified
user when that user belongs to the project's teams, and the empty set when
no such user is found; no disabled-user filtering is applied, so the user is
returned even when they belong to any disabled set. -/
theorem get_send_to_member_spec (projectTeamUsers : Finset ℕ) (i : ℕ)
    (disabled : Finset ℕ) :
    get_send_to_member projectTeamUsers none = ∅ ∧
    (i ∈ projectTeamUsers → get_send_to_member projectTeamUsers (some i) = {i}) ∧
    (i ∉ projectTeamUsers → get_send_to_member projectTeamUsers (some i) = ∅) ∧
    (i ∈ projectTeamUsers → i ∈ disabled →
      i ∈ get_send_to_member projectTeamUsers (some i)) := by
  unfold get_send_to_member
  refine ⟨rfl, fun h => by simp [h], fun h => by simp [h], fun h _ => by simp [h]⟩

theorem get_send_to_member_spec_witness :
    get_send_to_member ({7} : Finset ℕ) none = ∅ ∧
    get_send_to_member ({7} : Finset ℕ) (some 7) = {7} ∧
    get_send_to_member ({7} : Finset ℕ) (some 8) = ∅ ∧
    (7 : ℕ) ∈ get_send_to_member ({7} : Finset ℕ) (some 7) :=
  ⟨(get_send_to_member_spec {7} 7 {7}).1,
    (get_send_to_member_spec {7} 7 {7}).2.1 (by decide),
    (get_send_to_member_spec {7} 8 {7}).2.2.1 (by decide),
    (get_send_to_member_spec {7} 7 {7}).2.2.2 (by decide) (by decide)⟩

/-- Helper: a successful bulkLoop starting at counter `i` with `a` attempts
already made uses at most `a + i + 1` attempts in total. -/
theorem bulkLoop_attempts_le (userIds : Finset ℕ) :
    ∀ (i : ℕ) (rows : Finset ℕ) (interf : List (Finset ℕ)) (a : ℕ)
      (res : Finset ℕ) (n : ℕ),
      bulkLoop userIds i rows interf a = Except.ok (res, n) → n ≤ a + i + 1 := by
  intro i
  induction i with
  | zero =>
    intro rows interf a res n h
    rw [bulkLoop] at h
    cases hb : bulkAttempt userIds rows (interf.headD ∅) with
    | ok r => rw [hb] at h; simp at h; omega
    | error e => rw [hb] at h; simp at h
  | succ i' ih =>
    intro rows interf a res n h
    rw [bulkLoop] at h
    cases hb : bulkAttempt userIds rows (interf.headD ∅) with
    | ok r => rw [hb] at h; simp at h; omega
    | error e =>
      rw [hb] at h
      have := ih (rows ∪ interf.headD ∅) interf.tail (a + 1) res n h
      omega

/-- C2: bulk_subscribe makes at most 5 insert attempts; each attempt
re-queries the existing rows and inserts only the missing user ids; a
conflict while the loop counter is positive retries against the re-queried
state, and a conflict on the final attempt (counter 0, the fifth) is raised;
concretely, five consecutive conflicts surface the IntegrityError. -/
theorem bulk_subscribe_retry_spec (rows userIds : Finset ℕ)
    (interf : List (Finset ℕ)) :
    (∀ res n, bulk_subscribe rows userIds interf = Except.ok (res, n) → n ≤ 5) ∧
    (∀ rows' intf r, bulkAttempt userIds rows' intf = Except.ok r →
      r = (rows' ∪ intf) ∪ (userIds \ rows')) ∧
    (∀ i rows' intf rest a, ((userIds \ rows') ∩ intf).Nonempty →
      bulkLoop userIds (i + 1) rows' (intf :: rest) a =
        bulkLoop userIds i (rows' ∪ intf) rest (a + 1)) ∧
    (∀ rows' intf rest a e, bulkAttempt userIds rows' intf = Except.error e →
      bulkLoop userIds 0 rows' (intf :: rest) a = Except.error e) ∧
    bulk_subscribe ∅ {1, 2, 3, 4, 5} [{1}, {2}, {3}, {4}, {5}] =
      Except.error StoreError.integrity := by
  refine ⟨?_, ?_, ?_, ?_, by decide⟩
  · intro res n h
    have := bulkLoop_attempts_le userIds 4 rows interf 0 res n h
    omega
  · intro rows' intf r h
    simp only [bulkAttempt] at h
    split at h
    · exact absurd h (by simp)
    · simp only [Except.ok.injEq] at h
      rw [← h, Finset.sdiff_inter_self_right]
  · intro i rows' intf rest a hconf
    rw [bulkLoop]
    have hne : (((userIds \ (rows' ∩ userIds)) ∩ (rows' ∪ intf))).Nonempty := by
      rw [Finset.sdiff_inter_self_right]
      obtain ⟨x, hx⟩ := hconf
      exact ⟨x, by
        simp only [Finset.mem_inter, Finset.mem_union, Finset.mem_sdiff] at hx ⊢
        exact ⟨hx.1, Or.inr hx.2⟩⟩
    have hb : bulkAttempt userIds rows' intf = Except.error StoreError.integrity := by
      simp only [bulkAttempt]
      rw [if_pos hne]
    simp [hb]
  · intro rows' intf rest a e h
    rw [bulkLoop]
    simp [h]

theorem bulk_subscribe_retry_spec_witness :
    (1 : ℕ) ≤ 5 ∧
    ({1} : Finset ℕ) = ((∅ ∪ ∅) ∪ ({1} \ ∅) : Finset ℕ) ∧
    bulkLoop {1} (0 + 1) ∅ [{1}] 0 = bulkLoop {1} 0 (∅ ∪ {1}) [] (0 + 1) ∧
    bulkLoop {1} 0 ∅ [{1}] 0 = Except.error StoreError.integrity :=
  ⟨(bulk_subscribe_retry_spec ∅ {1} []).1 {1} 1 (by decide),
   (bulk_subscribe_retry_spec ∅ {1} []).2.1 ∅ ∅ {1} (by decide),
   (bulk_subscribe_retry_spec ∅ {1} []).2.2.1 0 ∅ {1} [] 0 (by decide),
   (bulk_subscribe_retry_spec ∅ {1} []).2.2.2.1 ∅ {1} [] 0 StoreError.integrity (by decide)⟩

/-- C1: a (user, reason) pair is produced by get_participants iff the user
is a project member and either (a) their subscription row exists, is active,
and their resolved workflow setting is not "never" — the reason being the
row's reason — or (b) no row exists and their resolved setting is "always" —
the reason being the synthetic implicit reason.  In particular a user with
no row and a default setting, or a subscribed user with setting "never", is
excluded. -/
theorem get_participants_spec (users : List ℕ) (subs : List SubscriptionRow)
    (setting : ℕ → SettingValue) (u : ℕ) (r : Int) :
    (u, r) ∈ get_participants users subs setting ↔
      u ∈ users ∧
      ((∃ s, subsByUserId subs u = some s ∧ s.is_active = true ∧
          setting u ≠ SettingValue.never ∧ r = s.reason) ∨
        (subsByUserId subs u = none ∧ setting u = SettingValue.always ∧
          r = GroupSubscriptionReason.implicit)) := by
  unfold get_participants
  rw [List.mem_filterMap]
  constructor
  · rintro ⟨a, ha, hf⟩
    split at hf
    · rename_i hp
      have hau : a = u := (Prod.mk.injEq _ _ _ _ ▸ Option.some.inj hf).1
      subst hau
      refine ⟨ha, ?_⟩
      have hr : r = (match subsByUserId subs a with
          | some s => s.reason
          | none => GroupSubscriptionReason.implicit) :=
        ((Prod.mk.injEq _ _ _ _ ▸ Option.some.inj hf).2).symm
      cases hs : subsByUserId subs a with
      | some s =>
        left
        rw [hs] at hr hp
        simp only [should_be_participating, Bool.and_eq_true, decide_eq_true_eq] at hp
        exact ⟨s, rfl, hp.1, by simpa using hp.2, hr⟩
      | none =>
        right
        rw [hs] at hr hp
        simp only [should_be_participating, decide_eq_true_eq] at hp
        exact ⟨rfl, hp, hr⟩
    · exact absurd hf (by simp)
  · rintro ⟨hu, hcase⟩
    refine ⟨u, hu, ?_⟩
    rcases hcase with ⟨s, hs, hact, hnev, hr⟩ | ⟨hs, hal, hr⟩
    · rw [hs] at *
      have hp : should_be_participating (some s) (setting u) = true := by
        simp only [should_be_participating, Bool.and_eq_true, decide_eq_true_eq]
        exact ⟨hact, by simpa using hnev⟩
      rw [hs, hp]
      simp [hr]
    · have hp : should_be_participating none (setting u) = true := by
        simp [should_be_participating, hal]
      rw [hs, hp]
      simp [hs, hr]

/-- Helper: membership in a left fold of unions. -/
theorem mem_foldl_union (f : ℕ → Finset ℕ) (l : List ℕ) (u : ℕ) :
    ∀ init : Finset ℕ,
      (u ∈ l.foldl (fun acc t => acc ∪ f t) init ↔ u ∈ init ∨ ∃ t ∈ l, u ∈ f t) := by
  induction l with
  | nil => intro init; simp
  | cons t ts ih =>
    intro init
    rw [List.foldl_cons, ih]
    simp only [Finset.mem_union, List.mem_cons]
    constructor
    · rintro ((h | h) | ⟨t', ht', hu⟩)
      · exact Or.inl h
      · exact Or.inr ⟨t, Or.inl rfl, h⟩
      · exact Or.inr ⟨t', Or.inr ht', hu⟩
    · rintro (h | ⟨t', ht' | ht', hu⟩)
      · exact Or.inl (Or.inl h)
      · exact Or.inl (Or.inr (ht' ▸ hu))
      · exact Or.inr ⟨t', ht', hu⟩

/-- Helper: characterization of disabled_users_from_project: a user is
disabled iff they are a project member whose settings dict exists, is
non-empty, and maps the PROJECT scope to NEVER. -/
theorem mem_disabled_users (members : List ℕ)
    (settingsByUser : ℕ → Option (List (ScopeType × SettingValue))) (u : ℕ) :
    u ∈ disabled_users_from_project members settingsByUser ↔
      u ∈ members ∧ ∃ ss, settingsByUser u = some ss ∧ ss ≠ [] ∧
        alistGet ss ScopeType.project = some SettingValue.never := by
  unfold disabled_users_from_project
  rw [List.mem_toFinset, List.mem_filter]
  constructor
  · rintro ⟨hm, hp⟩
    refine ⟨hm, ?_⟩
    cases hs : settingsByUser u with
    | none => rw [hs] at hp; simp at hp
    | some ss =>
      rw [hs] at hp
      simp only [Bool.and_eq_true, Bool.not_eq_true', decide_eq_true_eq] at hp
      exact ⟨ss, rfl, by intro h; rw [h] at hp; exact absurd hp.1 (by simp), hp.2⟩
  · rintro ⟨hm, ss, hs, hne, hget⟩
    refine ⟨hm, ?_⟩
    rw [hs]
    simp [hget, List.isEmpty_iff, hne]

/-- Helper: an owner kind that is not `user` is `team`. -/
theorem ownerKind_ne_user_iff (k : OwnerKind) :
    ¬k = OwnerKind.user ↔ k = OwnerKind.team := by
  cases k <;> simp

/-- C4: resolving ISSUE_OWNERS: the Everyone sentinel yields the project-wide
sendable set; an empty explicit owner set yields the empty set; otherwise
the result contains exactly the direct user owners and the members of team
owners, minus the users who disabled issue-alert notifications at the
project scope. -/
theorem get_send_to_owners_spec (teamMembers : ℕ → Finset ℕ)
    (allInProject : Finset ℕ) (members : List ℕ)
    (settingsByUser : ℕ → Option (List (ScopeType × SettingValue))) :
    get_send_to_owners OwnersResult.everyone teamMembers allInProject members
        settingsByUser = allInProject ∧
    get_send_to_owners (OwnersResult.explicit []) teamMembers allInProject members
        settingsByUser = ∅ ∧
    (∀ owners : List Owner, owners ≠ [] → ∀ u : ℕ,
      u ∈ get_send_to_owners (OwnersResult.explicit owners) teamMembers allInProject
          members settingsByUser ↔
        (((∃ o ∈ owners, o.kind = OwnerKind.user ∧ o.id = u) ∨
          (∃ o ∈ owners, o.kind = OwnerKind.team ∧ u ∈ teamMembers o.id)) ∧
         u ∉ disabled_users_from_project members settingsByUser)) := by
  refine ⟨rfl, rfl, fun owners hne u => ?_⟩
  simp only [get_send_to_owners]
  rw [if_neg (by simpa [List.isEmpty_iff] using hne)]
  rw [Finset.mem_sdiff, Finset.mem_union]
  constructor
  · rintro ⟨hin | hteam, hdis⟩
    · refine ⟨Or.inl ?_, hdis⟩
      simp only [List.mem_toFinset, List.mem_map, List.mem_filter,
        decide_eq_true_eq] at hin
      obtain ⟨o, ⟨ho, hk⟩, hid⟩ := hin
      exact ⟨o, ho, hk, hid⟩
    · refine ⟨Or.inr ?_, hdis⟩
      rw [mem_foldl_union] at hteam
      rcases hteam with h | ⟨t, ht, hu⟩
      · simp at h
      · simp only [List.mem_map, List.mem_filter, decide_eq_true_eq] at ht
        obtain ⟨o, ⟨ho, hk⟩, hid⟩ := ht
        exact ⟨o, ho, (ownerKind_ne_user_iff o.kind).mp hk, hid ▸ hu⟩
  · rintro ⟨hdirect | hteam, hdis⟩
    · refine ⟨Or.inl ?_, hdis⟩
      obtain ⟨o, ho, hk, hid⟩ := hdirect
      simp only [List.mem_toFinset, List.mem_map, List.mem_filter,
        decide_eq_true_eq]
      exact ⟨o, ⟨ho, hk⟩, hid⟩
    · refine ⟨Or.inr ?_, hdis⟩
      rw [mem_foldl_union]
      obtain ⟨o, ho, hk, hu⟩ := hteam
      refine Or.inr ⟨o.id, ?_, hu⟩
      simp only [List.mem_map, List.mem_filter, decide_eq_true_eq]
      exact ⟨o, ⟨ho, (ownerKind_ne_user_iff o.kind).mpr hk⟩, rfl⟩

theorem get_send_to_owners_spec_witness :
    get_send_to_owners OwnersResult.everyone exTeamMembers {99} [20, 21]
        exSettingsByUser = {99} ∧
    get_send_to_owners (OwnersResult.explicit []) exTeamMembers {99} [20, 21]
        exSettingsByUser = ∅ ∧
    ((11 : ℕ) ∈ get_send_to_owners
        (OwnersResult.explicit [⟨OwnerKind.user, 11⟩, ⟨OwnerKind.team, 9⟩])
        exTeamMembers {99} [20, 21] exSettingsByUser ↔
      (((∃ o ∈ [Owner.mk OwnerKind.user 11, Owner.mk OwnerKind.team 9],
            o.kind = OwnerKind.user ∧ o.id = 11) ∨
        (∃ o ∈ [Owner.mk OwnerKind.user 11, Owner.mk OwnerKind.team 9],
            o.kind = OwnerKind.team ∧ (11 : ℕ) ∈ exTeamMembers o.id)) ∧
       (11 : ℕ) ∉ disabled_users_from_project [20, 21] exSettingsByUser)) :=
  ⟨(get_send_to_owners_spec exTeamMembers {99} [20, 21] exSettingsByUser).1,
   (get_send_to_owners_spec exTeamMembers {99} [20, 21] exSettingsByUser).2.1,
   (get_send_to_owners_spec exTeamMembers {99} [20, 21] exSettingsByUser).2.2
     [⟨OwnerKind.user, 11⟩, ⟨OwnerKind.team, 9⟩] (by decide) 11⟩

/-- Helper: after updating key `k` in the map built by a left-to-right dict,
the first hit in the reversed list is the updated binding. -/
theorem find?_map_update {α β : Type} [DecidableEq α] (k : α) (v : β) :
    ∀ l : List (α × β), (∃ p ∈ l, p.1 = k) →
      (l.map (fun p => if p.1 = k then (k, v) else p)).find? (fun p => p.1 = k) =
        some (k, v) := by
  intro l
  induction l with
  | nil => rintro ⟨p, hp, _⟩; simp at hp
  | cons q qs ih =>
    rintro ⟨p, hp, hpk⟩
    rcases List.mem_cons.mp hp with rfl | hmem
    · rw [List.map_cons, if_pos hpk, List.find?_cons_of_pos _ (by simp)]
    · by_cases hq : q.1 = k
      · rw [List.map_cons, if_pos hq, List.find?_cons_of_pos _ (by simp)]
      · rw [List.map_cons, if_neg hq, List.find?_cons_of_neg _ (by simp [hq])]
        exact ih ⟨p, hmem, hpk⟩

/-- Helper: looking up a key immediately after setting it returns the value
just set. -/
theorem alistGet_alistSet {α β : Type} [DecidableEq α] (l : List (α × β))
    (k : α) (v : β) : alistGet (alistSet l k v) k = some v := by
  unfold alistGet alistSet
  by_cases h : l.any (fun p => p.1 = k)
  · rw [if_pos h, ← List.map_reverse, find?_map_update]
    · rfl
    · simp only [List.any_eq_true, decide_eq_true_eq] at h
      obtain ⟨p, hp, hpk⟩ := h
      exact ⟨p, List.mem_reverse.mpr hp, hpk⟩
  · rw [if_neg h, List.reverse_append]
    simp

/-- C5 counterexample: on an event whose matched rule future carries keyword
arguments, rule_notify raises NotImplementedError before consulting
digesting — with digesting enabled no record is appended and no flush
triggered, and with digesting disabled no immediate delivery is produced,
refuting the claimed dispatch for this in-scope input. -/
theorem rule_notify_counterexample :
    rule_notify true ([] : List (DigestKey × List Record)) 3 ActionTargetType.team
        (some 4) [exFutureKwargs] 10 1 [8] =
      Except.error StoreError.notImplemented ∧
    rule_notify false ([] : List (DigestKey × List Record)) 3 ActionTargetType.team
        (some 4) [exFutureKwargs] 10 1 [8] =
      Except.error StoreError.notImplemented := by
  decide

/-- C5 (amended): provided no matched rule future carries keyword arguments:
with digesting enabled, rule_notify appends the event record under the
digest key derived from (project, target type, target identifier), and the
flush of that key is triggered exactly when the append reports immediate
delivery (buffer previously empty); with digesting disabled, the state is
untouched and the immediate path yields one delivery per resolved
recipient.  When some future carries keyword arguments, rule_notify raises
NotImplementedError before either path runs. -/
theorem rule_notify_spec (st : List (DigestKey × List Record)) (project : ℕ)
    (tt : ActionTargetType) (ti : Option ℕ) (futures : List RuleFuture)
    (ets eid : ℕ) (sendTo : List ℕ) :
    ((∀ f ∈ futures, f.kwargs = []) →
      (∃ st', rule_notify true st project tt ti futures ets eid sendTo =
          Except.ok (st', RuleNotifyResult.digested (project, tt, ti)
            ((alistGet st (project, tt, ti)).getD []).isEmpty) ∧
        alistGet st' (project, tt, ti) =
          some (((alistGet st (project, tt, ti)).getD []) ++
            [event_to_record ets eid (futures.map RuleFuture.ruleId)])) ∧
      rule_notify false st project tt ti futures ets eid sendTo =
        Except.ok (st, RuleNotifyResult.immediate sendTo)) ∧
    ((∃ f ∈ futures, f.kwargs ≠ []) → ∀ enabled,
      rule_notify enabled st project tt ti futures ets eid sendTo =
        Except.error StoreError.notImplemented) := by
  constructor
  · intro hk
    have hany : (futures.any fun f => !f.kwargs.isEmpty) = false := by
      rw [List.any_eq_false]
      intro f hf
      simp [hk f hf]
    constructor
    · refine ⟨alistSet st (project, tt, ti)
        (((alistGet st (project, tt, ti)).getD []) ++
          [event_to_record ets eid (futures.map RuleFuture.ruleId)]), ?_, ?_⟩
      · simp only [rule_notify, hany, Bool.false_eq_true, if_false, if_true,
          digests_add, unsplit_key]
      · exact alistGet_alistSet st (project, tt, ti) _
    · simp only [rule_notify, hany, Bool.false_eq_true, if_false]
  · rintro ⟨f, hf, hne⟩ enabled
    have hany : (futures.any fun f => !f.kwargs.isEmpty) = true := by
      rw [List.any_eq_true]
      refine ⟨f, hf, ?_⟩
      cases h : f.kwargs with
      | nil => exact absurd h hne
      | cons a l => simp [h]
    simp only [rule_notify, hany, if_true]

theorem rule_notify_spec_witness :
    (∃ st', rule_notify true ([] : List (DigestKey × List Record)) 3
        ActionTargetType.team (some 4) [exFutureOk] 10 1 [8] =
        Except.ok (st', RuleNotifyResult.digested (3, ActionTargetType.team, some 4)
          ((alistGet ([] : List (DigestKey × List Record))
            (3, ActionTargetType.team, some 4)).getD []).isEmpty) ∧
      alistGet st' (3, ActionTargetType.team, some 4) =
        some (((alistGet ([] : List (DigestKey × List Record))
            (3, ActionTargetType.team, some 4)).getD []) ++
          [event_to_record 10 1 ([exFutureOk].map RuleFuture.ruleId)])) ∧
    rule_notify false ([] : List (DigestKey × List Record)) 3 ActionTargetType.team
        (some 4) [exFutureOk] 10 1 [8] =
      Except.ok ([], RuleNotifyResult.immediate [8]) ∧
    rule_notify true ([] : List (DigestKey × List Record)) 3 ActionTargetType.team
        (some 4) [exFutureKwargs] 10 1 [8] =
      Except.error StoreError.notImplemented :=
  ⟨((rule_notify_spec [] 3 ActionTargetType.team (some 4) [exFutureOk] 10 1 [8]).1
      (by decide)).1,
   ((rule_notify_spec [] 3 ActionTargetType.team (some 4) [exFutureOk] 10 1 [8]).1
      (by decide)).2,
   (rule_notify_spec [] 3 ActionTargetType.team (some 4) [exFutureKwargs] 10 1 [8]).2
      ⟨exFutureKwargs, by decide, by decide⟩ true⟩

/-- C7 counterexample: the send loops of notify and notify_digest contain no
per-recipient try/except, so with resolved recipients [1, 2] and a send that
raises for recipient 1, no send is ever attempted for recipient 2 — refuting
the claim that a per-recipient error does not prevent the other attempts. -/
theorem sendLoop_counterexample :
    (2 : ℕ) ∈ [1, 2] ∧ sendLoopAttempted exSendFail [1, 2] = [1] ∧
    (2 : ℕ) ∉ sendLoopAttempted exSendFail [1, 2] := by
  decide

/-- C7 (amended): within the synchronous send loop an exception for one
recipient propagates: when every send succeeds all resolved recipients are
attempted, but when the sends for `xs` succeed and the send for `u` raises,
exactly `xs ++ u` is attempted and every later recipient not among them is
skipped. -/
theorem sendLoop_spec (send : ℕ → Except Unit Unit) :
    (∀ l : List ℕ, (∀ x ∈ l, send x = Except.ok ()) →
      sendLoopAttempted send l = l) ∧
    (∀ xs : List ℕ, ∀ u : ℕ, ∀ ys : List ℕ,
      (∀ x ∈ xs, send x = Except.ok ()) → send u = Except.error () →
      sendLoopAttempted send (xs ++ u :: ys) = xs ++ [u] ∧
      ∀ y ∈ ys, y ∉ xs ++ [u] →
        y ∉ sendLoopAttempted send (xs ++ u :: ys)) := by
  have hall : ∀ l : List ℕ, (∀ x ∈ l, send x = Except.ok ()) →
      sendLoopAttempted send l = l := by
    intro l hl
    induction l with
    | nil => rfl
    | cons x xs ih =>
      rw [sendLoopAttempted, hl x (List.mem_cons_self x xs)]
      rw [ih (fun y hy => hl y (List.mem_cons_of_mem x hy))]
  have habort : ∀ xs : List ℕ, ∀ u : ℕ, ∀ ys : List ℕ,
      (∀ x ∈ xs, send x = Except.ok ()) → send u = Except.error () →
      sendLoopAttempted send (xs ++ u :: ys) = xs ++ [u] := by
    intro xs u ys hxs hu
    induction xs with
    | nil => simp only [List.nil_append]; rw [sendLoopAttempted, hu]
    | cons x xs' ih =>
      rw [List.cons_append, sendLoopAttempted, hxs x (List.mem_cons_self x xs')]
      rw [ih (fun y hy => hxs y (List.mem_cons_of_mem x hy))]
      rfl
  refine ⟨hall, fun xs u ys hxs hu => ⟨habort xs u ys hxs hu, ?_⟩⟩
  intro y _ hy
  rw [habort xs u ys hxs hu]
  exact hy

theorem sendLoop_spec_witness :
    sendLoopAttempted exSendFail [2, 3] = [2, 3] ∧
    sendLoopAttempted exSendFail ([2] ++ 1 :: [5]) = [2] ++ [1] ∧
    (5 : ℕ) ∉ sendLoopAttempted exSendFail ([2] ++ 1 :: [5]) :=
  ⟨(sendLoop_spec exSendFail).1 [2, 3] (by decide),
   ((sendLoop_spec exSendFail).2 [2] 1 [5] (by decide) (by decide)).1,
   ((sendLoop_spec exSendFail).2 [2] 1 [5] (by decide) (by decide)).2 5
     (by decide) (by decide)⟩

/-- Helper: the fold used for Python's max-by-timestamp picks an element of
the list that every element's timestamp is bounded by. -/
theorem foldl_maxBy_spec (rest : List Record) : ∀ r : Record,
    (rest.foldl (fun m r' => if r'.timestamp > m.timestamp then r' else m) r)
        ∈ r :: rest ∧
    r.timestamp ≤
      (rest.foldl (fun m r' => if r'.timestamp > m.timestamp then r' else m) r).timestamp ∧
    ∀ r' ∈ rest, r'.timestamp ≤
      (rest.foldl (fun m r' => if r'.timestamp > m.timestamp then r' else m) r).timestamp := by
  induction rest with
  | nil => intro r; exact ⟨List.mem_cons_self r [], le_refl _, by simp⟩
  | cons x xs ih =>
    intro r
    rw [List.foldl_cons]
    obtain ⟨hmem, hle, hall⟩ := ih (if x.timestamp > r.timestamp then x else r)
    have hr : r.timestamp ≤ (if x.timestamp > r.timestamp then x else r).timestamp := by
      split <;> omega
    have hx : x.timestamp ≤ (if x.timestamp > r.timestamp then x else r).timestamp := by
      split
      · exact le_refl _
      · omega
    refine ⟨?_, le_trans hr hle, ?_⟩
    · rcases List.mem_cons.mp hmem with h | h
      · rw [h]
        split
        · exact List.mem_cons_of_mem _ (List.mem_cons_self _ _)
        · exact List.mem_cons_self _ _
      · exact List.mem_cons_of_mem _ (List.mem_cons_of_mem _ h)
    · intro r' hr'
      rcases List.mem_cons.mp hr' with h | h
      · rw [h]
        exact le_trans hx hle
      · exact hall r' h

/-- Helper: maxByTimestamp of a non-empty list is some element whose
timestamp bounds every element's. -/
theorem maxByTimestamp_spec (l : List Record) (hne : l ≠ []) :
    ∃ r, maxByTimestamp l = some r ∧ r ∈ l ∧
      ∀ r' ∈ l, r'.timestamp ≤ r.timestamp := by
  cases l with
  | nil => exact absurd rfl hne
  | cons x xs =>
    obtain ⟨hmem, hle, hall⟩ := foldl_maxBy_spec xs x
    refine ⟨_, rfl, hmem, ?_⟩
    intro r' hr'
    rcases List.mem_cons.mp hr' with h | h
    · exact h ▸ hle
    · exact hall r' h

/-- Helper: notify_digest on a list headed by a recipient whose personalized
digest has a single (non-empty) group returns the single-notification path
with the max-timestamp record, abandoning the rest of the recipients. -/
theorem notify_digest_first_single (u : ℕ) (d : Digest) (ys : List (ℕ × Digest))
    (g : ℕ) (r : Record) (hd : digestGroups d = [g])
    (hmax : maxByTimestamp (allRecordsFor d g) = some r) :
    notify_digest ((u, d) :: ys) = [DigestDelivery.single r] := by
  simp only [notify_digest, hd, List.length_singleton, if_pos, List.head?_cons, hmax]

/-- Helper: notify_digest on a list headed by a recipient whose personalized
digest does not have exactly one group sends that recipient the aggregate
digest and continues with the remaining recipients. -/
theorem notify_digest_cons_multi (u : ℕ) (d : Digest) (ys : List (ℕ × Digest))
    (h : (digestGroups d).length ≠ 1) :
    notify_digest ((u, d) :: ys) =
      DigestDelivery.aggregate u d :: notify_digest ys := by
  simp only [notify_digest, if_neg h]

/-- C3 counterexample: two recipients, the first personalized digest has one
group, the second has two; notify_digest collapses to the single path on the
first pair and RETURNS, so recipient 2 never receives the aggregate digest
rendering the claim promises. -/
theorem notify_digest_counterexample :
    notify_digest [(1, exDigestOne), (2, exDigestTwo)] =
      [DigestDelivery.single exRecord1] ∧
    DigestDelivery.aggregate 2 exDigestTwo ∉
      notify_digest [(1, exDigestOne), (2, exDigestTwo)] := by
  decide

/-- C3 (amended): notify_digest walks the personalized digests in order;
while each digest spans a number of groups other than one, that recipient
receives the aggregate rendering and the loop continues (when no digest has
exactly one group, every recipient gets the aggregate rendering); at the
first recipient whose digest has exactly one group the call returns the
single-notification path carrying the record with the maximal timestamp for
that group, and every later recipient receives nothing. -/
theorem notify_digest_spec (ps : List (ℕ × Digest)) :
    ((∀ p ∈ ps, (digestGroups p.2).length ≠ 1) →
      notify_digest ps = ps.map fun p => DigestDelivery.aggregate p.1 p.2) ∧
    (∀ xs : List (ℕ × Digest), ∀ u : ℕ, ∀ d : Digest, ∀ ys : List (ℕ × Digest),
      ∀ g : ℕ,
      ps = xs ++ (u, d) :: ys →
      (∀ p ∈ xs, (digestGroups p.2).length ≠ 1) →
      digestGroups d = [g] →
      allRecordsFor d g ≠ [] →
      ∃ r, maxByTimestamp (allRecordsFor d g) = some r ∧
        notify_digest ps =
          (xs.map fun p => DigestDelivery.aggregate p.1 p.2) ++
            [DigestDelivery.single r] ∧
        r ∈ allRecordsFor d g ∧
        ∀ r' ∈ allRecordsFor d g, r'.timestamp ≤ r.timestamp) := by
  constructor
  · induction ps with
    | nil => intro _; rfl
    | cons p ps' ih =>
      intro h
      obtain ⟨u, d⟩ := p
      rw [notify_digest_cons_multi u d ps' (h (u, d) (List.mem_cons_self _ _)),
        List.map_cons, ih (fun q hq => h q (List.mem_cons_of_mem _ hq))]
  · intro xs u d ys g hps hxs hd hne
    obtain ⟨r, hmax, hmem, hall⟩ := maxByTimestamp_spec (allRecordsFor d g) hne
    refine ⟨r, hmax, ?_, hmem, hall⟩
    subst hps
    induction xs with
    | nil => simpa using notify_digest_first_single u d ys g r hd hmax
    | cons q qs ih =>
      obtain ⟨qu, qd⟩ := q
      rw [List.cons_append,
        notify_digest_cons_multi qu qd _ (hxs (qu, qd) (List.mem_cons_self _ _)),
        ih (fun p hp => hxs p (List.mem_cons_of_mem _ hp)), List.map_cons,
        List.cons_append]

theorem notify_digest_spec_witness :
    notify_digest [(2, exDigestTwo)] =
      [(2, exDigestTwo)].map (fun p => DigestDelivery.aggregate p.1 p.2) ∧
    (∃ r, maxByTimestamp (allRecordsFor exDigestOne 5) = some r ∧
      notify_digest ([(2, exDigestTwo)] ++ (1, exDigestOne) :: [(3, exDigestTwo)]) =
        ([(2, exDigestTwo)].map fun p => DigestDelivery.aggregate p.1 p.2) ++
          [DigestDelivery.single r] ∧
      r ∈ allRecordsFor exDigestOne 5 ∧
      ∀ r' ∈ allRecordsFor exDigestOne 5, r'.timestamp ≤ r.timestamp) :=
  ⟨(notify_digest_spec [(2, exDigestTwo)]).1 (by decide),
   (notify_digest_spec ([(2, exDigestTwo)] ++ (1, exDigestOne) :: [(3, exDigestTwo)])).2
     [(2, exDigestTwo)] 1 exDigestOne [(3, exDigestTwo)] 5 rfl (by decide)
     (by decide) (by decide)⟩

end Sentry
